import Mathlib

/-
Verification of the document ingestion and chunking pipeline of
`crewai_demo` (ingest_books.py, topic_expert_agent.py).

Python strings are modelled as `List Char`; machine file metadata (sizes,
timestamps) as `Nat`; fallible external lookups as `Option`.  All functions
are executable `def`s so that concrete runs can be evaluated by `decide`.
-/

set_option maxRecDepth 100000

namespace Engineroom

/-- Python `str.strip()` whitespace test, restricted to the ASCII whitespace
characters (space, tab, newline, carriage return, vertical tab, form feed). -/
def isPySpace (c : Char) : Bool :=
  c == ' ' || c == '\t' || c == '\n' || c == '\r' || c == Char.ofNat 11 || c == Char.ofNat 12

/-- Python `str.strip()` on a string modelled as a character list. -/
def pyStrip (l : List Char) : List Char :=
  ((l.dropWhile isPySpace).reverse.dropWhile isPySpace).reverse

/-- Python `s.rfind(c)`: index of the last occurrence of character `c` in `s`,
`none` when absent.  (The source compares Python's `-1` sentinel against a
positive bound, so the absent case never triggers the sentence trim; `Option`
models the sentinel.) -/
def rfindIdx (c : Char) : List Char → Option Nat
  | [] => none
  | x :: xs =>
    match rfindIdx c xs with
    | some i => some (i + 1)
    | none => if x == c then some 0 else none

/-- Decimal digit character (codepoint 48 is `0`). -/
def digitChar (n : Nat) : Char := Char.ofNat (48 + n)

/-- Fuel-driven decimal printer; `fuel > n` always suffices because the
recursive call divides the argument by ten. -/
def natReprAux : Nat → Nat → List Char
  | 0, _ => []
  | fuel + 1, n =>
    if n < 10 then [digitChar n]
    else natReprAux fuel (n / 10) ++ [digitChar (n % 10)]

/-- Decimal representation of a natural number, modelling the Python
f-string interpolation of `chunk_id` in `chunk_text`. -/
def natRepr (n : Nat) : List Char := natReprAux (n + 1) n

/-- `CHUNK_SIZE` (ingest_books.py line 36): characters per chunk. -/
def CHUNK_SIZE : Nat := 1000

/-- `CHUNK_OVERLAP` (ingest_books.py line 37): overlap between chunks. -/
def CHUNK_OVERLAP : Nat := 200

/-- One chunk record emitted by `chunk_text` (ingest_books.py lines 208-214). -/
structure Chunk where
  id : List Char
  text : List Char
  source : List Char
  source_type : List Char
  chunk_index : Nat
  deriving DecidableEq

/-- The end of the window emitted for cursor position `start` by one iteration
of `chunk_text` (ingest_books.py lines 198-206): tentative end
`start + CHUNK_SIZE`; when the tentative window stops short of the text's end
and the window contains a `.` whose last index exceeds `CHUNK_SIZE // 2`, the
window is shrunk to end right after that period. -/
def chunkEnd (text : List Char) (start : Nat) : Nat :=
  if start + CHUNK_SIZE < text.length then
    match rfindIdx '.' ((text.drop start).take CHUNK_SIZE) with
    | some lp => if CHUNK_SIZE / 2 < lp then start + lp + 1 else start + CHUNK_SIZE
    | none => start + CHUNK_SIZE
  else start + CHUNK_SIZE

/-- The `while start < len(text)` loop of `chunk_text` (ingest_books.py lines
197-217), with explicit fuel.  Each iteration emits the window
`[start, chunkEnd text start)` as a chunk (text sliced from the source text
and stripped) and advances the cursor to `chunkEnd text start - CHUNK_OVERLAP`.
`chunkLoop_fuel` below shows the result does not depend on the fuel once the
fuel reaches `text.length - start`. -/
def chunkLoop (text s ty : List Char) : Nat → Nat → Nat → List Chunk
  | 0, _, _ => []
  | fuel + 1, start, chunkId =>
    if start < text.length then
      { id := s ++ '_' :: natRepr chunkId,
        text := pyStrip ((text.drop start).take (chunkEnd text start - start)),
        source := s,
        source_type := ty,
        chunk_index := chunkId } ::
        chunkLoop text s ty fuel (chunkEnd text start - CHUNK_OVERLAP) (chunkId + 1)
    else []

/-- `chunk_text(text, source_name, source_type)` (ingest_books.py lines
191-219). -/
def chunkText (text s ty : List Char) : List Chunk :=
  chunkLoop text s ty text.length 0 0

/-- The `(start, end)` windows traversed by the `chunk_text` loop, in emission
order; the `j`-th emitted chunk's text is the `j`-th window's slice of the
text, stripped (`chunkLoop_eq_windows`). -/
def chunkWindowsLoop (text : List Char) : Nat → Nat → List (Nat × Nat)
  | 0, _ => []
  | fuel + 1, start =>
    if start < text.length then
      (start, chunkEnd text start) ::
        chunkWindowsLoop text fuel (chunkEnd text start - CHUNK_OVERLAP)
    else []

/-- The windows of `chunk_text` on a whole text. -/
def chunkWindows (text : List Char) : List (Nat × Nat) :=
  chunkWindowsLoop text text.length 0

/-- Python `\s` (ASCII fragment), the class collapsed by `_safe_filename`. -/
def isPyWs (c : Char) : Bool := isPySpace c

/-- Characters removed by `_safe_filename` (ingest_books.py line 48):
the filesystem-reserved set. -/
def isReservedChar (c : Char) : Bool :=
  c == '\\' || c == '/' || c == ':' || c == '*' || c == '?' ||
  c == '"' || c == '<' || c == '>' || c == '|'

/-- `re.sub(pattern+, repl, s)` where every maximal nonempty run of characters
satisfying `p` is replaced by the single character `r`; `inRun` records whether
the previous character belonged to a run. -/
def collapseRunsAux (p : Char → Bool) (r : Char) : Bool → List Char → List Char
  | _, [] => []
  | inRun, c :: cs =>
    if p c then
      (if inRun then [] else [r]) ++ collapseRunsAux p r true cs
    else c :: collapseRunsAux p r false cs

/-- Replace each maximal run of `p`-characters by `r`. -/
def collapseRuns (p : Char → Bool) (r : Char) (l : List Char) : List Char :=
  collapseRunsAux p r false l

/-- `_safe_filename(name)` (ingest_books.py lines 45-50): collapse runs of
reserved characters to `_`, collapse whitespace runs to a single space, strip. -/
def safeFilename (name : List Char) : List Char :=
  pyStrip (collapseRuns isPyWs ' ' (collapseRuns isReservedChar '_' name))

/-- A remote Drive PDF as consumed by `sync_drive_pdfs` (ingest_books.py lines
128-135): `name` models `f.get("name", "unknown.pdf")`, `size` models
`int(f.get("size") or 0)` (so `0` covers both a missing field and a zero-byte
file), and `modifiedTime` models the `modifiedTime` string together with
`_parse_rfc3339`: `none` when the field is absent or empty, `some none` when
present but unparseable (the parse raises), `some (some t)` when it parses to
the UTC timestamp `t`. -/
structure DriveFile where
  name : List Char
  size : Nat
  modifiedTime : Option (Option Nat)
  deriving DecidableEq

/-- The local destination file's observable state: `exists_` models
`dest_path.exists()`, and `stat?` models `dest_path.stat()` — `none` when the
stat raises `OSError`, `some st` giving `st_size` and `st_mtime` (as a UTC
timestamp) otherwise. -/
structure LocalFile where
  exists_ : Bool
  stat? : Option (Nat × Nat)
  deriving DecidableEq

/-- The per-file download decision of `sync_drive_pdfs` (ingest_books.py lines
137-154): download when forced or the local copy is absent; else, when the
remote size is nonzero, re-download if the local size cannot be read or
differs; else, when a remote modified time is present, re-download if it
parses, the local mtime is readable, and the local time is strictly older
(any failure inside that `try` falls back to not downloading). -/
def shouldDownload (force : Bool) (f : DriveFile) (l : LocalFile) : Bool :=
  let sd0 := force || !l.exists_
  let sd1 :=
    if !sd0 && (f.size != 0) && l.exists_ then
      match l.stat? with
      | none => true
      | some st => if st.1 != f.size then true else sd0
    else sd0
  if !sd1 && f.modifiedTime.isSome && l.exists_ then
    match f.modifiedTime, l.stat? with
    | some (some rt), some st => if st.2 < rt then true else sd1
    | _, _ => sd1
  else sd1

/-- The download policy exactly as the claim words it (for comparison with
`shouldDownload`): download when force is true, or the local copy is absent,
or the sizes differ, or the remote modified-time is strictly newer than the
local modification time (both available and parseable). -/
def specDownloadPolicy (force : Bool) (f : DriveFile) (l : LocalFile) : Bool :=
  force || !l.exists_ ||
  (match l.stat? with
   | some st => st.1 != f.size
   | none => false) ||
  (match f.modifiedTime, l.stat? with
   | some (some rt), some st => decide (st.2 < rt)
   | _, _ => false)

/-- Local destination file name for a remote PDF (ingest_books.py lines
129-131): sanitized name, with `.pdf` appended unless the lowercased name
already ends in it. -/
def destName (f : DriveFile) : List Char :=
  let n := safeFilename f.name
  if (".pdf".data).isSuffixOf (n.map Char.toLower) then n else n ++ ".pdf".data

/-- One iteration of the `sync_drive_pdfs` loop body for remote file `f`
(ingest_books.py lines 128-162): the local destination path, paired with the
download decision taken for it.  `fs` gives the observable local state at each
path. -/
def syncFile (force : Bool) (fs : List Char → LocalFile) (destDir : List Char)
    (f : DriveFile) : List Char × Bool :=
  let path := destDir ++ '/' :: destName f
  (path, shouldDownload force f (fs path))

/-- The `for f in files` loop of `sync_drive_pdfs` in emission order. -/
def syncLoop (force : Bool) (fs : List Char → LocalFile) (destDir : List Char) :
    List DriveFile → List (List Char × Bool)
  | [] => []
  | f :: rest => syncFile force fs destDir f :: syncLoop force fs destDir rest

/-- `sync_drive_pdfs` (ingest_books.py lines 115-164), over an already-listed
set of remote files: returns the `downloaded` list of local paths — one per
remote file, appended whether the file was downloaded or skipped.  The empty
listing returns early with `[]` (line 123). -/
def syncDrivePdfs (files : List DriveFile) (force : Bool)
    (fs : List Char → LocalFile) (destDir : List Char) : List (List Char) :=
  if files.isEmpty then []
  else (syncLoop force fs destDir files).map (fun p => p.1)

/-- The title-relevant parts of a parsed article page, as `extract_article_text`
observes them (ingest_books.py lines 245-257): `titleTag` is `soup.title`
(`none` when there is no `<title>` tag; `some s` when the tag exists, with
`s` modelling `soup.title.string or ""`); `ogTitle` is the `content` attribute
of the `og:title` meta tag when that tag exists and carries the attribute
(`none` covers both a missing tag and a missing attribute); `h1Text` is the
stripped text of the first `<h1>` when one exists. -/
structure HtmlDoc where
  titleTag : Option String
  ogTitle : Option String
  h1Text : Option String
  deriving DecidableEq

/-- The title resolution of `extract_article_text` (ingest_books.py lines
245-257): start from the `<title>` text (or `""`), overwrite it with the
Open Graph title whenever that is present with truthy content, and fall back
to the first `<h1>` only when the result so far is empty. -/
def resolveTitle (d : HtmlDoc) : String :=
  let t1 := match d.titleTag with
    | some s => s
    | none => ""
  let t2 := match d.ogTitle with
    | some c => if c ≠ "" then c else t1
    | none => t1
  if t2 = "" then
    match d.h1Text with
    | some h => h
    | none => t2
  else t2

/-- The cascade exactly as the claim words it (for comparison with
`resolveTitle`): the `<title>` tag first; only if that is absent the Open
Graph title; only if both are absent the first `<h1>`; otherwise empty. -/
def specTitleCascade (d : HtmlDoc) : String :=
  match d.titleTag with
  | some s => s
  | none =>
    match d.ogTitle with
    | some c => c
    | none =>
      match d.h1Text with
      | some h => h
      | none => ""

/-- The title resolution as the amended claim words it: a present Open Graph
title with nonempty content takes precedence; otherwise the `<title>` text
(empty when the tag is absent); when the result is empty, the first `<h1>`'s
text when present; otherwise empty. -/
def amendedTitleCascade (d : HtmlDoc) : String :=
  let base := match d.ogTitle with
    | some c => if c ≠ "" then c else (d.titleTag.getD "")
    | none => d.titleTag.getD ""
  if base = "" then (d.h1Text.getD "") else base

/-- The fields of the dict returned by `extract_article_text` that
`add_article_to_knowledge_base` consumes. -/
structure ArticleData where
  title : List Char
  text : List Char
  url : List Char
  domain : List Char
  deriving DecidableEq

/-- Operations `add_article_to_knowledge_base` issues against the vector
index: the `get_collection` attempt, the `create_collection` fallback, and a
batched `collection.add` carrying ids and documents. -/
inductive DbOp where
  | getCollection : DbOp
  | createCollection : DbOp
  | addBatch : List (List Char) → List (List Char) → DbOp
  deriving DecidableEq

/-- The batching loop `for i in range(0, len(chunks), batch_size)`
(ingest_books.py lines 354-366), fuel-driven on the list length. -/
def toBatchesAux (n : Nat) : Nat → List Chunk → List (List Chunk)
  | _, [] => []
  | 0, _ => []
  | fuel + 1, l => l.take n :: toBatchesAux n fuel (l.drop n)

/-- Split a chunk list into batches of (at most) `n`. -/
def toBatches (n : Nat) (l : List Chunk) : List (List Chunk) :=
  toBatchesAux n l.length l

/-- `add_article_to_knowledge_base(url)` (ingest_books.py lines 305-375),
starting from the already-extracted article.  The vector-index collection is
modelled as `Option` of its `(id, document)` entries (`none`: the collection
does not exist).  The result gives the returned chunk count, the collection
state after the call, and the operations issued against the index.  A text
that is empty or under 100 characters returns `0` before any index
interaction (lines 317-319). -/
def addArticleToKnowledgeBase (article : ArticleData)
    (st : Option (List (List Char × List Char))) :
    Nat × Option (List (List Char × List Char)) × List DbOp :=
  if article.text.isEmpty || article.text.length < 100 then
    (0, st, [])
  else
    let getOps := match st with
      | some _ => [DbOp.getCollection]
      | none => [DbOp.getCollection, DbOp.createCollection]
    let entries := match st with
      | some es => es
      | none => []
    let safeTitle :=
      if article.title.isEmpty then "untitled".data
      else safeFilename (article.title.take 50)
    let sourceName :=
      "[Article] ".data ++ safeTitle ++ " (".data ++ article.domain ++ ")".data
    let chunks := chunkText article.text sourceName "article".data
    let addOps := (toBatches 100 chunks).map
      (fun b => DbOp.addBatch (b.map (fun c => c.id)) (b.map (fun c => c.text)))
    (chunks.length,
     some (entries ++ chunks.map (fun c => (c.id, c.text))),
     getOps ++ addOps)

/-- The result formatting of `KnowledgeSearchTool._run`
(topic_expert_agent.py lines 39-58), from the query result's first document
list and metadata list (`metas` entries model `metadata.get('source',
'Unknown')`'s input): an empty document list yields the no-information
message; otherwise the evidence block. -/
def knowledgeSearchFormat (docs : List String) (metas : List (Option String)) : String :=
  if docs.isEmpty then "No relevant information found in the knowledge base."
  else
    "RELEVANT HISTORICAL EVIDENCE:\n\n" ++
      String.join (((docs.zip metas).enum).map (fun p =>
        "[Source " ++ toString (p.1 + 1) ++ ": " ++ p.2.2.getD "Unknown" ++ "]\n" ++
          p.2.1 ++ "\n\n"))

/-- The per-result lines printed by `test_query` (ingest_books.py lines
494-496), one string per result in the zip of documents and metadata
sources. -/
def testQueryLines (docs : List String) (sources : List String) : List String :=
  ((docs.zip sources).enum).map (fun p =>
    "\nResult " ++ toString (p.1 + 1) ++ " (from " ++ p.2.2 ++ "):\n  " ++
      p.2.1.take 300 ++ "...")

/-- Every window of `chunk_text` ends at least `CHUNK_SIZE / 2 + 2 = 502`
characters past its start: the sentence trim only fires past the window's
midpoint, and an untrimmed window spans the full `CHUNK_SIZE`. -/
theorem chunkEnd_ge (text : List Char) (start : Nat) :
    start + 502 ≤ chunkEnd text start := by
  unfold chunkEnd
  split
  · split
    · split
      · simp only [CHUNK_SIZE] at *
        omega
      · simp only [CHUNK_SIZE]
        omega
    · simp only [CHUNK_SIZE]
      omega
  · simp only [CHUNK_SIZE]
    omega

theorem chunkLoop_nil (text s ty : List Char) (fuel start k : Nat)
    (h : ¬ start < text.length) : chunkLoop text s ty fuel start k = [] := by
  cases fuel with
  | zero => rfl
  | succ f => simp [chunkLoop, h]

theorem chunkWindowsLoop_nil (text : List Char) (fuel start : Nat)
    (h : ¬ start < text.length) : chunkWindowsLoop text fuel start = [] := by
  cases fuel with
  | zero => rfl
  | succ f => simp [chunkWindowsLoop, h]

theorem chunkLoop_cons (text s ty : List Char) (fuel start k : Nat)
    (h : start < text.length) :
    chunkLoop text s ty (fuel + 1) start k =
      { id := s ++ '_' :: natRepr k,
        text := pyStrip ((text.drop start).take (chunkEnd text start - start)),
        source := s, source_type := ty, chunk_index := k } ::
        chunkLoop text s ty fuel (chunkEnd text start - CHUNK_OVERLAP) (k + 1) := by
  simp [chunkLoop, h]

theorem chunkWindowsLoop_cons (text : List Char) (fuel start : Nat)
    (h : start < text.length) :
    chunkWindowsLoop text (fuel + 1) start =
      (start, chunkEnd text start) ::
        chunkWindowsLoop text fuel (chunkEnd text start - CHUNK_OVERLAP) := by
  simp [chunkWindowsLoop, h]

/-- The chunking loop is fuel-independent once the fuel covers the remaining
text, because each iteration advances the cursor (`chunkEnd_ge`): this is the
termination argument for the source's `while` loop. -/
theorem chunkLoop_fuel (text s ty : List Char) :
    ∀ f₁ f₂ start k, text.length ≤ start + f₁ → text.length ≤ start + f₂ →
      chunkLoop text s ty f₁ start k = chunkLoop text s ty f₂ start k := by
  intro f₁
  induction f₁ with
  | zero =>
    intro f₂ start k h1 h2
    rw [chunkLoop_nil text s ty 0 start k (by omega),
      chunkLoop_nil text s ty f₂ start k (by omega)]
  | succ f ih =>
    intro f₂ start k h1 h2
    by_cases hs : start < text.length
    · cases f₂ with
      | zero => omega
      | succ g =>
        rw [chunkLoop_cons text s ty f start k hs, chunkLoop_cons text s ty g start k hs]
        have hadv := chunkEnd_ge text start
        have hov : CHUNK_OVERLAP = 200 := rfl
        congr 1
        exact ih g (chunkEnd text start - CHUNK_OVERLAP) (k + 1) (by omega) (by omega)
    · rw [chunkLoop_nil text s ty (f + 1) start k hs, chunkLoop_nil text s ty f₂ start k hs]

theorem chunkLoop_length (text s ty : List Char) :
    ∀ fuel start k, (chunkLoop text s ty fuel start k).length =
      (chunkWindowsLoop text fuel start).length := by
  intro fuel
  induction fuel with
  | zero => intro start k; rfl
  | succ f ih =>
    intro start k
    by_cases hs : start < text.length
    · rw [chunkLoop_cons text s ty f start k hs, chunkWindowsLoop_cons text f start hs]
      simp [ih]
    · rw [chunkLoop_nil text s ty (f + 1) start k hs, chunkWindowsLoop_nil text (f + 1) start hs]
      rfl

theorem chunkLoop_map_text (text s ty : List Char) :
    ∀ fuel start k, (chunkLoop text s ty fuel start k).map (fun c => c.text) =
      (chunkWindowsLoop text fuel start).map
        (fun w => pyStrip ((text.drop w.1).take (w.2 - w.1))) := by
  intro fuel
  induction fuel with
  | zero => intro start k; rfl
  | succ f ih =>
    intro start k
    by_cases hs : start < text.length
    · rw [chunkLoop_cons text s ty f start k hs, chunkWindowsLoop_cons text f start hs]
      simp [ih]
    · rw [chunkLoop_nil text s ty (f + 1) start k hs, chunkWindowsLoop_nil text (f + 1) start hs]
      rfl

theorem chunkLoop_map_index (text s ty : List Char) :
    ∀ fuel start k, (chunkLoop text s ty fuel start k).map (fun c => c.chunk_index) =
      List.range' k (chunkWindowsLoop text fuel start).length := by
  intro fuel
  induction fuel with
  | zero => intro start k; rfl
  | succ f ih =>
    intro start k
    by_cases hs : start < text.length
    · rw [chunkLoop_cons text s ty f start k hs, chunkWindowsLoop_cons text f start hs]
      simp [ih, List.range'_succ]
    · rw [chunkLoop_nil text s ty (f + 1) start k hs, chunkWindowsLoop_nil text (f + 1) start hs]
      rfl

theorem chunkLoop_map_id (text s ty : List Char) :
    ∀ fuel start k, (chunkLoop text s ty fuel start k).map (fun c => c.id) =
      (List.range' k (chunkWindowsLoop text fuel start).length).map
        (fun j => s ++ '_' :: natRepr j) := by
  intro fuel
  induction fuel with
  | zero => intro start k; rfl
  | succ f ih =>
    intro start k
    by_cases hs : start < text.length
    · rw [chunkLoop_cons text s ty f start k hs, chunkWindowsLoop_cons text f start hs]
      simp [ih, List.range'_succ]
    · rw [chunkLoop_nil text s ty (f + 1) start k hs, chunkWindowsLoop_nil text (f + 1) start hs]
      rfl

/-- Coverage invariant of the chunking loop: with enough fuel, every text
position at or past the cursor falls inside some emitted window. -/
theorem chunkWindowsLoop_cover (text : List Char) :
    ∀ fuel start, text.length ≤ start + fuel →
      ∀ i, start ≤ i → i < text.length →
        ∃ j w, (chunkWindowsLoop text fuel start).get? j = some w ∧ w.1 ≤ i ∧ i < w.2 := by
  intro fuel
  induction fuel with
  | zero => intro start h i h1 h2; omega
  | succ f ih =>
    intro start h i h1 h2
    have hs : start < text.length := by omega
    rw [chunkWindowsLoop_cons text f start hs]
    by_cases hi : i < chunkEnd text start
    · exact ⟨0, (start, chunkEnd text start), rfl, h1, hi⟩
    · have hadv := chunkEnd_ge text start
      have hov : CHUNK_OVERLAP = 200 := rfl
      obtain ⟨j, w, hw, hw1, hw2⟩ := ih (chunkEnd text start - CHUNK_OVERLAP)
        (by omega) i (by omega) h2
      exact ⟨j + 1, w, hw, hw1, hw2⟩

theorem natReprAux_fuel : ∀ f₁ f₂ n, n < f₁ → n < f₂ →
    natReprAux f₁ n = natReprAux f₂ n := by
  intro f₁
  induction f₁ with
  | zero => intro f₂ n h1 h2; omega
  | succ f ih =>
    intro f₂ n h1 h2
    cases f₂ with
    | zero => omega
    | succ g =>
      by_cases h10 : n < 10
      · simp [natReprAux, h10]
      · simp only [natReprAux, if_neg h10]
        rw [ih g (n / 10) (by omega) (by omega)]

theorem natRepr_def (n : Nat) :
    natRepr n = if n < 10 then [digitChar n]
      else natRepr (n / 10) ++ [digitChar (n % 10)] := by
  show natReprAux (n + 1) n = _
  by_cases h10 : n < 10
  · simp [natReprAux, h10]
  · simp only [natReprAux, if_neg h10]
    rw [natReprAux_fuel n (n / 10 + 1) (n / 10) (by omega) (by omega)]
    rfl

theorem natRepr_ne_nil (n : Nat) : natRepr n ≠ [] := by
  rw [natRepr_def]
  by_cases h10 : n < 10 <;> simp [h10]

theorem digitChar_inj {a b : Nat} (ha : a < 10) (hb : b < 10)
    (h : digitChar a = digitChar b) : a = b := by
  interval_cases a <;> interval_cases b <;> revert h <;> decide

/-- The decimal printer is injective, so distinct chunk indices yield distinct
chunk ids. -/
theorem natRepr_inj : ∀ (a b : Nat), natRepr a = natRepr b → a = b := by
  intro a
  induction a using Nat.strong_induction_on with
  | _ a ih =>
    intro b h
    rw [natRepr_def a, natRepr_def b] at h
    by_cases ha : a < 10 <;> by_cases hb : b < 10
    · simp only [if_pos ha, if_pos hb, List.cons.injEq] at h
      exact digitChar_inj ha hb h.1
    · exfalso
      simp only [if_pos ha, if_neg hb] at h
      have h' := congrArg List.reverse h
      simp only [List.reverse_cons, List.reverse_nil, List.nil_append,
        List.reverse_append, List.singleton_append, List.cons.injEq] at h'
      have hnil : (natRepr (b / 10)).reverse = [] := h'.2.symm
      exact natRepr_ne_nil (b / 10) (by simpa using hnil)
    · exfalso
      simp only [if_neg ha, if_pos hb] at h
      have h' := congrArg List.reverse h
      simp only [List.reverse_cons, List.reverse_nil, List.nil_append,
        List.reverse_append, List.singleton_append, List.cons.injEq] at h'
      have hnil : (natRepr (a / 10)).reverse = [] := h'.2
      exact natRepr_ne_nil (a / 10) (by simpa using hnil)
    · simp only [if_neg ha, if_neg hb] at h
      have h' := congrArg List.reverse h
      simp only [List.reverse_append, List.reverse_cons, List.reverse_nil,
        List.nil_append, List.singleton_append, List.cons.injEq] at h'
      have h1 : a % 10 = b % 10 := digitChar_inj (by omega) (by omega) h'.1
      have h2 : natRepr (a / 10) = natRepr (b / 10) := by
        have := congrArg List.reverse h'.2
        simpa using this
      have h3 : a / 10 = b / 10 := ih (a / 10) (by omega) (b / 10) h2
      omega

/-- The chunk-id builder used by `chunk_text` is injective in the index. -/
theorem chunkId_inj (s : List Char) :
    Function.Injective (fun j => s ++ '_' :: natRepr j) := by
  intro x y hxy
  have h1 : ('_' :: natRepr x) = ('_' :: natRepr y) := List.append_cancel_left hxy
  simp only [List.cons.injEq, true_and] at h1
  exact natRepr_inj x y h1

/-- `shouldDownload`, rewritten as the disjunction the amended claim states:
forced, or no local copy, or (nonzero remote size and the local size is
unreadable or differs), or (parseable remote modified time, readable local
stat, and the remote time strictly newer). -/
theorem shouldDownload_eq (force : Bool) (f : DriveFile) (l : LocalFile) :
    shouldDownload force f l =
      (force || !l.exists_ ||
        ((f.size != 0) && (match l.stat? with
          | none => true
          | some st => st.1 != f.size)) ||
        (match f.modifiedTime, l.stat? with
          | some (some rt), some st => decide (st.2 < rt)
          | _, _ => false)) := by
  rcases f with ⟨name, sz, mt⟩
  rcases l with ⟨ex, st⟩
  cases force
  · cases ex
    · simp [shouldDownload]
    · rcases st with _ | ⟨lsz, lmt⟩
      · rcases mt with _ | (_ | rt) <;>
          by_cases hsz : sz = 0 <;> simp_all [shouldDownload]
      · rcases mt with _ | (_ | rt)
        · by_cases hdiff : lsz = sz <;> by_cases hsz : sz = 0 <;>
            simp_all [shouldDownload]
        · by_cases hdiff : lsz = sz <;> by_cases hsz : sz = 0 <;>
            simp_all [shouldDownload]
        · by_cases hdiff : lsz = sz <;> by_cases hsz : sz = 0 <;>
            by_cases hlt : lmt < rt <;> simp_all [shouldDownload]
  · simp [shouldDownload]

/-- `resolveTitle` follows the amended cascade: Open Graph first, then the
`<title>` text, then (when the result is empty) the first `<h1>`. -/
theorem resolveTitle_eq (d : HtmlDoc) : resolveTitle d = amendedTitleCascade d := by
  rcases d with ⟨t, og, h1⟩
  rcases t with _ | t
  · rcases og with _ | og
    · rcases h1 with _ | h1 <;> simp [resolveTitle, amendedTitleCascade]
    · rcases h1 with _ | h1 <;> by_cases hog : og = "" <;>
        simp [resolveTitle, amendedTitleCascade, hog]
  · rcases og with _ | og
    · rcases h1 with _ | h1 <;> by_cases ht : t = "" <;>
        simp [resolveTitle, amendedTitleCascade, ht]
    · rcases h1 with _ | h1 <;> by_cases hog : og = "" <;> by_cases ht : t = "" <;>
        simp [resolveTitle, amendedTitleCascade, hog, ht]

theorem syncLoop_paths (force : Bool) (fs : List Char → LocalFile) (destDir : List Char) :
    ∀ files, (syncLoop force fs destDir files).map (fun p => p.1) =
      files.map (fun f => destDir ++ '/' :: destName f) := by
  intro files
  induction files with
  | nil => rfl
  | cons f rest ih => simp [syncLoop, syncFile, ih]

theorem chunkEnd_of_short (text : List Char) (start : Nat)
    (h : ¬ start + CHUNK_SIZE < text.length) :
    chunkEnd text start = start + CHUNK_SIZE := by
  unfold chunkEnd
  rw [if_neg h]

theorem chunkText_length_eq (text s ty : List Char) :
    (chunkText text s ty).length = (chunkWindows text).length :=
  chunkLoop_length text s ty text.length 0 0

theorem chunkText_map_text (text s ty : List Char) :
    (chunkText text s ty).map (fun c => c.text) =
      (chunkWindows text).map (fun w => pyStrip ((text.drop w.1).take (w.2 - w.1))) :=
  chunkLoop_map_text text s ty text.length 0 0

theorem chunkText_map_index (text s ty : List Char) :
    (chunkText text s ty).map (fun c => c.chunk_index) =
      List.range (chunkWindows text).length := by
  rw [List.range_eq_range']
  exact chunkLoop_map_index text s ty text.length 0 0

theorem chunkText_map_id (text s ty : List Char) :
    (chunkText text s ty).map (fun c => c.id) =
      (List.range (chunkWindows text).length).map (fun j => s ++ '_' :: natRepr j) := by
  rw [List.range_eq_range']
  exact chunkLoop_map_id text s ty text.length 0 0

/-- A nonempty text no longer than `CHUNK_SIZE - CHUNK_OVERLAP` is traversed
in a single window. -/
theorem chunkWindows_of_le_800 (text : List Char) (h0 : 0 < text.length)
    (h8 : text.length ≤ 800) : chunkWindows text = [(0, 1000)] := by
  have hcs : CHUNK_SIZE = 1000 := rfl
  have hco : CHUNK_OVERLAP = 200 := rfl
  unfold chunkWindows
  obtain ⟨f, hf⟩ : ∃ f, text.length = f + 1 := ⟨text.length - 1, by omega⟩
  rw [hf, chunkWindowsLoop_cons text f 0 (by omega)]
  rw [chunkEnd_of_short text 0 (by omega)]
  rw [chunkWindowsLoop_nil text f (0 + CHUNK_SIZE - CHUNK_OVERLAP) (by omega)]
  norm_num [hcs]

/-- A text of exactly `CHUNK_SIZE` characters is traversed in two windows:
the whole text, then the redundant tail window starting at
`CHUNK_SIZE - CHUNK_OVERLAP`. -/
theorem chunkWindows_of_1000 (text : List Char) (h : text.length = 1000) :
    chunkWindows text = [(0, 1000), (800, 1800)] := by
  have hcs : CHUNK_SIZE = 1000 := rfl
  have hco : CHUNK_OVERLAP = 200 := rfl
  unfold chunkWindows
  rw [h]
  show chunkWindowsLoop text (999 + 1) 0 = _
  rw [chunkWindowsLoop_cons text 999 0 (by omega)]
  rw [chunkEnd_of_short text 0 (by omega)]
  have h2 : chunkWindowsLoop text 999 (0 + CHUNK_SIZE - CHUNK_OVERLAP) = [(800, 1800)] := by
    have : (0 + CHUNK_SIZE - CHUNK_OVERLAP) = 800 := by omega
    rw [this]
    show chunkWindowsLoop text (998 + 1) 800 = _
    rw [chunkWindowsLoop_cons text 998 800 (by omega)]
    rw [chunkEnd_of_short text 800 (by omega)]
    rw [chunkWindowsLoop_nil text 998 (800 + CHUNK_SIZE - CHUNK_OVERLAP) (by omega)]
    norm_num [hcs]
  rw [h2]
  norm_num [hcs]

/-- For a 1500-character text whose last period within the first window sits
at index 900, the loop produces the trimmed window `(0, 901)` followed by
`(701, 1701)`. -/
theorem chunkWindows_c3 (text : List Char) (hlen : text.length = 1500)
    (hfind : rfindIdx '.' (text.take CHUNK_SIZE) = some 900) :
    chunkWindows text = [(0, 901), (701, 1701)] := by
  have hcs : CHUNK_SIZE = 1000 := rfl
  have hco : CHUNK_OVERLAP = 200 := rfl
  unfold chunkWindows
  rw [hlen]
  show chunkWindowsLoop text (1499 + 1) 0 = _
  rw [chunkWindowsLoop_cons text 1499 0 (by omega)]
  have he0 : chunkEnd text 0 = 901 := by
    unfold chunkEnd
    rw [if_pos (by omega)]
    rw [List.drop_zero, hfind]
    show (if CHUNK_SIZE / 2 < 900 then 0 + 900 + 1 else 0 + CHUNK_SIZE) = 901
    rw [if_pos (by omega)]
  rw [he0]
  have h2 : chunkWindowsLoop text 1499 (901 - CHUNK_OVERLAP) = [(701, 1701)] := by
    have : (901 - CHUNK_OVERLAP) = 701 := by omega
    rw [this]
    show chunkWindowsLoop text (1498 + 1) 701 = _
    rw [chunkWindowsLoop_cons text 1498 701 (by omega)]
    rw [chunkEnd_of_short text 701 (by omega)]
    rw [chunkWindowsLoop_nil text 1498 (701 + CHUNK_SIZE - CHUNK_OVERLAP) (by omega)]
    norm_num [hcs]
  rw [h2]

/-- Claim C1, counterexample: a text of exactly 1000 characters and no period
at all (1000 copies of `a`) yields two chunks, not the claimed single chunk —
after emitting the full-text chunk the loop sets `start = 1000 - 200 = 800`,
which is still below the text length, so a redundant tail chunk is emitted. -/
theorem claim_C1_counterexample :
    (chunkText (List.replicate 1000 'a') ['s'] ['b']).length = 2 ∧
    (chunkText (List.replicate 1000 'a') ['s'] ['b']).length ≠ 1 := by
  have h2 : (chunkText (List.replicate 1000 'a') ['s'] ['b']).length = 2 := by
    rw [chunkText_length_eq, chunkWindows_of_1000 _ (by simp)]
    rfl
  exact ⟨h2, by omega⟩

/-- Claim C1 (amended): for every text with `0 < len ≤ CHUNK_SIZE -
CHUNK_OVERLAP` (800), `chunk_text` returns exactly one chunk; a text of
exactly 1000 characters with no `.` at an index greater than 500 yields two
chunks, the first being the whole text (stripped); the empty text yields zero
chunks. -/
theorem claim_C1_amended (text s ty : List Char) :
    (0 < text.length → text.length ≤ 800 → (chunkText text s ty).length = 1) ∧
    (text.length = 1000 → (∀ i, 500 < i → text.get? i ≠ some '.') →
      (chunkText text s ty).length = 2 ∧
      (chunkText text s ty).head?.map (fun c => c.text) = some (pyStrip text)) ∧
    (text.length = 0 → chunkText text s ty = []) := by
  refine ⟨?_, ?_, ?_⟩
  · intro h0 h8
    rw [chunkText_length_eq, chunkWindows_of_le_800 text h0 h8]
    rfl
  · intro h _
    constructor
    · rw [chunkText_length_eq, chunkWindows_of_1000 text h]
      rfl
    · have hmap := chunkText_map_text text s ty
      rw [chunkWindows_of_1000 text h] at hmap
      have hhead := congrArg List.head? hmap
      rw [List.head?_map] at hhead
      simp only [List.map_cons, List.head?_cons] at hhead
      rw [hhead, List.drop_zero, List.take_of_length_le (by omega)]
  · intro h
    show chunkLoop text s ty text.length 0 0 = []
    rw [h]
    rfl

/-- Claim C1 (amended), witness: the single-chunk case at 800 characters, the
empty case, and the two-chunk case at 1000 characters, all at concrete
inputs. -/
theorem claim_C1_witness :
    (chunkText (List.replicate 800 'a') ['s'] ['b']).length = 1 ∧
    chunkText ([] : List Char) ['s'] ['b'] = [] ∧
    (chunkText (List.replicate 1000 'a') ['t'] ['b']).length = 2 :=
  ⟨(claim_C1_amended (List.replicate 800 'a') ['s'] ['b']).1 (by simp) (by simp),
   (claim_C1_amended [] ['s'] ['b']).2.2 (by simp),
   ((claim_C1_amended (List.replicate 1000 'a') ['t'] ['b']).2.1 (by simp)
     (fun i hi => by
       have hrep : (List.replicate 1000 'a').get? i =
           if i < 1000 then some 'a' else none := by
         rw [List.get?_eq_getElem?, List.getElem?_replicate]
       rw [hrep]
       split <;> decide)).1⟩

/-- Claim C2: for every text and every character position in it, some emitted
window of `chunk_text` contains that position (so, overlap discounted, no
character is dropped between consecutive chunk boundaries), and the chunk
list is in bijection with the window list. -/
theorem claim_C2 (text s ty : List Char) (i : Nat) (hi : i < text.length) :
    (chunkText text s ty).length = (chunkWindows text).length ∧
    ∃ j w, (chunkWindows text).get? j = some w ∧ w.1 ≤ i ∧ i < w.2 := by
  refine ⟨chunkText_length_eq text s ty, ?_⟩
  exact chunkWindowsLoop_cover text text.length 0 (by omega) i (by omega) hi

/-- Claim C2, witness: position 1 of the two-character text `ab` is covered
by an emitted window. -/
theorem claim_C2_witness :
    (chunkText ['a', 'b'] ['s'] ['t']).length = (chunkWindows ['a', 'b']).length ∧
    ∃ j w, (chunkWindows ['a', 'b']).get? j = some w ∧ w.1 ≤ 1 ∧ 1 < w.2 :=
  claim_C2 ['a', 'b'] ['s'] ['t'] 1 (by decide)

/-- Claim C3, counterexample: a 1500-character text whose last period in the
first 1000 characters sits at index 900, but which starts with a space — the
first chunk's stored text is the stripped slice `text[0:901]`, of length 900,
not the claimed 901. -/
theorem claim_C3_counterexample :
    (' ' :: (List.replicate 899 'a' ++ '.' :: List.replicate 599 'b')).length = 1500 ∧
    rfindIdx '.'
      ((' ' :: (List.replicate 899 'a' ++ '.' :: List.replicate 599 'b')).take CHUNK_SIZE) =
      some 900 ∧
    ((chunkText (' ' :: (List.replicate 899 'a' ++ '.' :: List.replicate 599 'b'))
        ['s'] ['t']).head?.map (fun c => c.text.length)) = some 900 ∧
    ((chunkText (' ' :: (List.replicate 899 'a' ++ '.' :: List.replicate 599 'b'))
        ['s'] ['t']).head?.map (fun c => c.text.length)) ≠ some 901 := by
  refine ⟨by simp, by decide, ?_, ?_⟩
  · decide
  · decide

/-- Claim C3 (amended): for a 1500-character text whose last `.` within the
first 1000 characters is at index 900, `chunk_text` emits a first chunk whose
window ends right after that period (covering `text[0:901]`, 901 characters;
the stored text is that slice with surrounding whitespace stripped) and begins
the second chunk at start index `901 - 200 = 701`. -/
theorem claim_C3_amended (text s ty : List Char) (hlen : text.length = 1500)
    (hfind : rfindIdx '.' (text.take CHUNK_SIZE) = some 900) :
    chunkWindows text = [(0, 901), (701, 1701)] ∧
    (chunkText text s ty).map (fun c => c.text) =
      [pyStrip (text.take 901), pyStrip ((text.drop 701).take 1000)] := by
  have hw := chunkWindows_c3 text hlen hfind
  refine ⟨hw, ?_⟩
  rw [chunkText_map_text, hw]
  norm_num

/-- Claim C3 (amended), witness: the concrete 1500-character text of 900 `a`s,
a period, and 599 `b`s. -/
theorem claim_C3_witness :
    chunkWindows (List.replicate 900 'a' ++ '.' :: List.replicate 599 'b') =
      [(0, 901), (701, 1701)] ∧
    (chunkText (List.replicate 900 'a' ++ '.' :: List.replicate 599 'b') ['s'] ['t']).map
        (fun c => c.text) =
      [pyStrip ((List.replicate 900 'a' ++ '.' :: List.replicate 599 'b').take 901),
       pyStrip (((List.replicate 900 'a' ++ '.' :: List.replicate 599 'b').drop 701).take 1000)] :=
  claim_C3_amended (List.replicate 900 'a' ++ '.' :: List.replicate 599 'b') ['s'] ['t']
    (by simp) (by decide)

/-- Claim C4: the chunks of one `chunk_text` run carry `chunk_index` values
`0, 1, ..., n-1` in emission order, each id is the source name, an
underscore, and the decimal index, and the ids are pairwise distinct. -/
theorem claim_C4 (text s ty : List Char) :
    (chunkText text s ty).map (fun c => c.chunk_index) =
      List.range (chunkText text s ty).length ∧
    (chunkText text s ty).map (fun c => c.id) =
      (List.range (chunkText text s ty).length).map (fun j => s ++ '_' :: natRepr j) ∧
    ((chunkText text s ty).map (fun c => c.id)).Nodup := by
  have hlen := chunkText_length_eq text s ty
  refine ⟨?_, ?_, ?_⟩
  · rw [hlen]
    exact chunkText_map_index text s ty
  · rw [hlen]
    exact chunkText_map_id text s ty
  · rw [chunkText_map_id text s ty]
    exact List.Nodup.map (chunkId_inj s) (List.nodup_range _)

/-- Claim C5, counterexample: a zero-byte remote file (`size=0`, the falsy
value the code gets for a missing or zero `size` field) with an existing
5-byte local copy and no remote modified time — the sizes differ, so the
claimed policy downloads, but the code's `remote_size and ...` guard skips the
size check and does not download. -/
theorem claim_C5_counterexample :
    shouldDownload false ⟨['f'], 0, none⟩ ⟨true, some (5, 0)⟩ = false ∧
    specDownloadPolicy false ⟨['f'], 0, none⟩ ⟨true, some (5, 0)⟩ = true ∧
    shouldDownload false ⟨['f'], 0, none⟩ ⟨true, some (5, 0)⟩ ≠
      specDownloadPolicy false ⟨['f'], 0, none⟩ ⟨true, some (5, 0)⟩ := by
  refine ⟨by decide, by decide, by decide⟩

/-- Claim C5 (amended): a file is downloaded exactly when force is true, or
the local copy is absent, or the remote size is nonzero and the local size is
unreadable or differs from it, or the remote modified-time is present and
parseable, the local stat is readable, and the remote time is strictly newer;
in particular a remote file of size 500 with an existing local copy of size
500 whose modified time is not older than the remote's is not re-downloaded
with `force=False`. -/
theorem claim_C5_amended :
    (∀ (force : Bool) (f : DriveFile) (l : LocalFile),
      shouldDownload force f l =
        (force || !l.exists_ ||
          ((f.size != 0) && (match l.stat? with
            | none => true
            | some st => st.1 != f.size)) ||
          (match f.modifiedTime, l.stat? with
            | some (some rt), some st => decide (st.2 < rt)
            | _, _ => false))) ∧
    shouldDownload false ⟨['f'], 500, some (some 5)⟩ ⟨true, some (500, 10)⟩ = false :=
  ⟨shouldDownload_eq, by decide⟩

/-- Claim C6, counterexample: a page with `<title>Foo</title>` and an Open
Graph title `Bar` — the code resolves the title to `Bar` (the Open Graph tag
overwrites the `<title>` text), while the claimed cascade would resolve it to
`Foo`. -/
theorem claim_C6_counterexample :
    resolveTitle ⟨some "Foo", some "Bar", none⟩ = "Bar" ∧
    specTitleCascade ⟨some "Foo", some "Bar", none⟩ = "Foo" ∧
    resolveTitle ⟨some "Foo", some "Bar", none⟩ ≠
      specTitleCascade ⟨some "Foo", some "Bar", none⟩ := by
  refine ⟨by decide, by decide, by decide⟩

/-- Claim C6 (amended): a present Open Graph title with nonempty content
takes precedence; otherwise the `<title>` tag's text (empty when the tag is
absent); only when the resulting title is empty is the first `<h1>` used;
otherwise the title is empty. -/
theorem claim_C6_amended : ∀ d : HtmlDoc, resolveTitle d = amendedTitleCascade d :=
  resolveTitle_eq

/-- Claim C7: an article whose extracted text is shorter than 100 characters
makes `add_article_to_knowledge_base` return 0 chunks before touching the
vector index — no get, create, or add operation is issued and the collection
state is unchanged. -/
theorem claim_C7 (article : ArticleData) (st : Option (List (List Char × List Char)))
    (h : article.text.length < 100) :
    addArticleToKnowledgeBase article st = (0, st, []) := by
  unfold addArticleToKnowledgeBase
  rw [if_pos]
  simp [h]

/-- Claim C7, witness: the empty article against a missing collection. -/
theorem claim_C7_witness :
    addArticleToKnowledgeBase ⟨[], [], [], []⟩ none = (0, none, []) :=
  claim_C7 ⟨[], [], [], []⟩ none (by decide)

/-- Claim C8: a query returning an empty result set yields the
empty-evidence signal — the agent tool's `_run` formats it as the
no-relevant-information message, and the ad hoc `test_query` path prints no
result line — rather than raising. -/
theorem claim_C8 :
    knowledgeSearchFormat [] [] = "No relevant information found in the knowledge base." ∧
    testQueryLines [] [] = [] :=
  ⟨rfl, rfl⟩

/-- Claim C9: `chunk_text` terminates on every finite input — each emitted
window's end exceeds its start by at least `CHUNK_SIZE / 2 + 2 = 502`, which
is strictly greater than `CHUNK_OVERLAP = 200`, so every iteration strictly
increases the cursor, and the loop's result is independent of any sufficient
fuel bound. -/
theorem claim_C9 (text s ty : List Char) (start k f₁ f₂ : Nat)
    (h₁ : text.length ≤ start + f₁) (h₂ : text.length ≤ start + f₂) :
    start + (CHUNK_SIZE / 2 + 2) ≤ chunkEnd text start ∧
    CHUNK_OVERLAP < CHUNK_SIZE / 2 + 2 ∧
    start < chunkEnd text start - CHUNK_OVERLAP ∧
    chunkLoop text s ty f₁ start k = chunkLoop text s ty f₂ start k := by
  have hge := chunkEnd_ge text start
  have hcs : CHUNK_SIZE = 1000 := rfl
  have hco : CHUNK_OVERLAP = 200 := rfl
  refine ⟨by omega, by omega, by omega, ?_⟩
  exact chunkLoop_fuel text s ty f₁ f₂ start k h₁ h₂

/-- Claim C9, witness: a one-character text at cursor 0 with two different
sufficient fuels. -/
theorem claim_C9_witness :
    0 + (CHUNK_SIZE / 2 + 2) ≤ chunkEnd ['a'] 0 ∧
    CHUNK_OVERLAP < CHUNK_SIZE / 2 + 2 ∧
    0 < chunkEnd ['a'] 0 - CHUNK_OVERLAP ∧
    chunkLoop ['a'] ['s'] ['b'] 1 0 0 = chunkLoop ['a'] ['s'] ['b'] 3 0 0 :=
  claim_C9 ['a'] ['s'] ['b'] 0 0 1 3 (by decide) (by decide)

/-- Claim C10: `sync_drive_pdfs` returns one local destination path per
remote PDF in the listing — downloaded or skipped alike — so the returned
list is exactly the per-file destination paths and its length equals the
number of remote files listed. -/
theorem claim_C10 (files : List DriveFile) (force : Bool)
    (fs : List Char → LocalFile) (destDir : List Char) :
    syncDrivePdfs files force fs destDir =
      files.map (fun f => destDir ++ '/' :: destName f) ∧
    (syncDrivePdfs files force fs destDir).length = files.length := by
  have hpaths : syncDrivePdfs files force fs destDir =
      files.map (fun f => destDir ++ '/' :: destName f) := by
    cases files with
    | nil => rfl
    | cons f rest =>
      simp only [syncDrivePdfs, List.isEmpty_cons, Bool.false_eq_true, if_false]
      exact syncLoop_paths force fs destDir (f :: rest)
  refine ⟨hpaths, ?_⟩
  rw [hpaths]
  simp

end Engineroom
